import Mathlib

/-
Verification of the strategy backtesting engine
(`Backtester` in `src/utils/backtesting.py`).

The engine is embedded shallowly:
* closing prices, capital and indicator values are rationals (the source
  uses binary floats; only definedness, signs, order and exact small-number
  arithmetic are relied on by the theorems below);
* the numpy/pandas NaN/inf propagation in the performance-metric pipeline
  is made explicit through the four-valued type `FV`;
* the per-bar simulation loop is a structural recursion over the list of
  bar indices, carrying the mutable Python state (`capital`, `shares`,
  `entry_price`) as an explicit `PState`.
-/

namespace AISB

/-- Model of one numeric cell as produced by the numpy/pandas float pipeline
in `Backtester._calculate_performance_metrics`: a finite value, positive
infinity, negative infinity, or NaN.  Finite values are rationals standing
in for the source's IEEE doubles. -/
inductive FV where
  | num (q : ℚ)
  | inf
  | ninf
  | nan
deriving DecidableEq

/-- True exactly on finite values. -/
def FV.isNum : FV → Bool
  | .num _ => true
  | _ => false

/-- IEEE negation: swaps the infinities, fixes NaN. -/
def FV.neg : FV → FV
  | .num q => .num (-q)
  | .inf => .ninf
  | .ninf => .inf
  | .nan => .nan

/-- IEEE addition on the model: NaN absorbs, opposite infinities give NaN. -/
def FV.add : FV → FV → FV
  | .nan, _ => .nan
  | _, .nan => .nan
  | .num a, .num b => .num (a + b)
  | .inf, .ninf => .nan
  | .ninf, .inf => .nan
  | .inf, _ => .inf
  | _, .inf => .inf
  | .ninf, _ => .ninf
  | _, .ninf => .ninf

/-- IEEE subtraction on the model. -/
def FV.sub (a b : FV) : FV := FV.add a (FV.neg b)

/-- IEEE multiplication on the model: NaN absorbs, `inf * 0 = NaN`,
infinities multiply by sign. -/
def FV.mul : FV → FV → FV
  | .nan, _ => .nan
  | _, .nan => .nan
  | .num a, .num b => .num (a * b)
  | .inf, .inf => .inf
  | .inf, .ninf => .ninf
  | .ninf, .inf => .ninf
  | .ninf, .ninf => .inf
  | .inf, .num b => if 0 < b then .inf else if b < 0 then .ninf else .nan
  | .num a, .inf => if 0 < a then .inf else if a < 0 then .ninf else .nan
  | .ninf, .num b => if 0 < b then .ninf else if b < 0 then .inf else .nan
  | .num a, .ninf => if 0 < a then .ninf else if a < 0 then .inf else .nan

/-- IEEE division on the numpy model: NaN absorbs, `0/0 = NaN`,
`x/0 = ±inf` for `x ≠ 0` (numpy semantics, a warning in the source, not an
exception), finite over infinite is `0`, infinite over infinite is NaN. -/
def FV.div : FV → FV → FV
  | .nan, _ => .nan
  | _, .nan => .nan
  | .num a, .num b =>
    if b ≠ 0 then .num (a / b)
    else if 0 < a then .inf else if a < 0 then .ninf else .nan
  | .num _, .inf => .num 0
  | .num _, .ninf => .num 0
  | .inf, .inf => .nan
  | .inf, .ninf => .nan
  | .ninf, .inf => .nan
  | .ninf, .ninf => .nan
  | .inf, .num b => if b < 0 then .ninf else .inf
  | .ninf, .num b => if b < 0 then .inf else .ninf

/-- Python comparison `x > 0` on the model: false on NaN and `-inf`,
true on `+inf`. -/
def FV.isPos : FV → Bool
  | .num q => decide (0 < q)
  | .inf => true
  | _ => false

/-- Binary maximum skipping NaN (pandas `skipna` semantics). -/
def FV.max2 : FV → FV → FV
  | .nan, b => b
  | a, .nan => a
  | .inf, _ => .inf
  | _, .inf => .inf
  | .ninf, b => b
  | a, .ninf => a
  | .num a, .num b => .num (max a b)

/-- Binary minimum skipping NaN (pandas `skipna` semantics). -/
def FV.min2 : FV → FV → FV
  | .nan, b => b
  | a, .nan => a
  | .ninf, _ => .ninf
  | _, .ninf => .ninf
  | .inf, b => b
  | a, .inf => a
  | .num a, .num b => .num (min a b)

/-- The seven recognized options of `strategy_params` after the
`strategy_params.get(...)` extraction at the top of
`Backtester.backtest_strategy` (defaults 14, 30, 70, 20, 50, 0.05, 0.10). -/
structure StrategyParams where
  rsi_period : Nat
  rsi_oversold : ℚ
  rsi_overbought : ℚ
  ma_short : Nat
  ma_long : Nat
  stop_loss : ℚ
  take_profit : ℚ
deriving DecidableEq

/-- The `action` strings appearing in the source's trade dictionaries. -/
inductive Action where
  | BUY
  | SELL
  | STOP_LOSS
  | TAKE_PROFIT
  | CLOSE
deriving DecidableEq

/-- One trade dictionary appended to `trades`; `date` is the bar index
(standing in for `hist.index[i]`), `capital` is the capital recorded right
after the trade executed. -/
structure Trade where
  date : Nat
  action : Action
  price : ℚ
  shares : ℤ
  capital : ℚ
deriving DecidableEq

/-- The mutable simulation state of the loop in `backtest_strategy`:
`capital`, `shares` and `entry_price`.  In the source `entry_price` is only
assigned on a BUY; it is initialized to 0 here, and the stop-loss block can
only read it after a BUY has set it (shares > 0 requires a prior BUY). -/
structure PState where
  capital : ℚ
  shares : ℤ
  entry_price : ℚ
deriving DecidableEq

/-- The three signal strings returned by `_generate_signal`. -/
inductive Signal where
  | BUY
  | SELL
  | HOLD
deriving DecidableEq

/-- The positive part of the price delta at index `j`
(`delta.where(delta > 0, 0)`).  Pandas `diff` yields NaN at index 0 and the
`where` replaces it by 0, so the gain series has no NaN and starts at 0. -/
def gainAt (prices : List ℚ) (j : Nat) : ℚ :=
  if j = 0 then 0
  else
    let d := prices.getD j 0 - prices.getD (j - 1) 0
    if 0 < d then d else 0

/-- The negated negative part of the price delta at index `j`
(`(-delta).where(delta < 0, 0)` — stored positive), 0 at index 0. -/
def lossAt (prices : List ℚ) (j : Nat) : ℚ :=
  if j = 0 then 0
  else
    let d := prices.getD j 0 - prices.getD (j - 1) 0
    if d < 0 then -d else 0

/-- The indices of the trailing rolling window of width `w` ending at `i`
(meaningful when `w ≤ i + 1`). -/
def windowIdx (i w : Nat) : List Nat :=
  (List.range w).map (fun k => i + 1 - w + k)

/-- RSI at bar `i` (`_calculate_rsi`).  The rolling means of gains and
losses are defined from index `rsi_period - 1` on (the gain/loss series
have no NaN).  With `avg_loss = 0` numpy gives `rs = inf` when
`avg_gain > 0` (so RSI = 100 − 100/(1+inf) = 100) and `rs = 0/0 = NaN` when
both are 0 (so RSI is NaN); `none` models NaN. -/
def rsiAt (prices : List ℚ) (period : Nat) (i : Nat) : Option ℚ :=
  if i + 1 < period then none
  else
    let avgGain := ((windowIdx i period).map (gainAt prices)).sum / (period : ℚ)
    let avgLoss := ((windowIdx i period).map (lossAt prices)).sum / (period : ℚ)
    if avgLoss = 0 then
      if avgGain = 0 then none else some 100
    else some (100 - 100 / (1 + avgGain / avgLoss))

/-- Simple rolling mean over a window of width `w`
(`hist['Close'].rolling(window=w).mean()`), NaN (`none`) during warm-up. -/
def maAt (prices : List ℚ) (w : Nat) (i : Nat) : Option ℚ :=
  if i + 1 < w then none
  else some (((windowIdx i w).map (fun j => prices.getD j 0)).sum / (w : ℚ))

/-- The triple (RSI, MA_short, MA_long) at bar `i`, `none` when any of the
three is NaN — exactly the `pd.isna(...) or ...` skip test of the loop. -/
def indicatorsAt (prices : List ℚ) (P : StrategyParams) (i : Nat) :
    Option (ℚ × ℚ × ℚ) :=
  match rsiAt prices P.rsi_period i, maAt prices P.ma_short i,
      maAt prices P.ma_long i with
  | some r, some ms, some ml => some (r, ms, ml)
  | _, _, _ => none

/-- `_generate_signal`: BUY on `rsi_buy and ma_buy`, else SELL on
`rsi_sell or ma_sell`, else HOLD. -/
def generate_signal (rsi ma_short ma_long rsi_oversold rsi_overbought : ℚ) :
    Signal :=
  if rsi < rsi_oversold ∧ ma_long < ma_short then .BUY
  else if rsi_overbought < rsi ∨ ma_short < ma_long then .SELL
  else .HOLD

/-- The per-bar trading decision: HOLD (skip) while any indicator is NaN,
otherwise the `_generate_signal` result. -/
def decisionAt (prices : List ℚ) (P : StrategyParams) (i : Nat) : Signal :=
  match indicatorsAt prices P i with
  | none => .HOLD
  | some (r, ms, ml) =>
    generate_signal r ms ml P.rsi_oversold P.rsi_overbought

/-- Modelled from the spec: the signal rule of spec section 4.2, written
from the spec's words (HOLD when any indicator is undefined; else BUY iff
`RSI < rsi_oversold AND MA_short > MA_long`; else SELL iff
`RSI > rsi_overbought OR MA_short < MA_long`; else HOLD), to be compared
with the decision derived from the source (`decisionAt`). -/
def specDecision (rsi? maS? maL? : Option ℚ)
    (rsi_oversold rsi_overbought : ℚ) : Signal :=
  match rsi?, maS?, maL? with
  | some r, some s, some l =>
    if r < rsi_oversold ∧ s > l then .BUY
    else if r > rsi_overbought ∨ s < l then .SELL
    else .HOLD
  | _, _, _ => .HOLD

/-- The BUY/SELL block of the loop (`if signal == 'BUY' and shares == 0`
… `elif signal == 'SELL' and shares > 0`).  Returns the new state and the
trades appended by the block. -/
def execSignal (price : ℚ) (i : Nat) (sig : Signal) (s : PState) :
    PState × List Trade :=
  if sig = .BUY ∧ s.shares = 0 then
    let sh : ℤ := Int.floor (s.capital / price)
    let c := s.capital - (sh : ℚ) * price
    (⟨c, sh, price⟩, [⟨i, .BUY, price, sh, c⟩])
  else if sig = .SELL ∧ 0 < s.shares then
    let c := s.capital + (s.shares : ℚ) * price
    (⟨c, 0, s.entry_price⟩, [⟨i, .SELL, price, s.shares, c⟩])
  else (s, [])

/-- The stop-loss / take-profit block of the loop (`if shares > 0:` …),
executed after the signal block on the state it left behind. -/
def execStops (P : StrategyParams) (price : ℚ) (i : Nat) (s : PState) :
    PState × List Trade :=
  if 0 < s.shares then
    let pc := (price - s.entry_price) / s.entry_price
    if pc ≤ -P.stop_loss then
      let c := s.capital + (s.shares : ℚ) * price
      (⟨c, 0, s.entry_price⟩, [⟨i, .STOP_LOSS, price, s.shares, c⟩])
    else if P.take_profit ≤ pc then
      let c := s.capital + (s.shares : ℚ) * price
      (⟨c, 0, s.entry_price⟩, [⟨i, .TAKE_PROFIT, price, s.shares, c⟩])
    else (s, [])
  else (s, [])

/-- One iteration of the backtest loop at bar `i`: skip (recording only the
equity point) while an indicator is NaN; otherwise signal block, then stop
block, then the equity point `capital + shares * close`.  Returns the new
state, the trades appended this bar, and the equity point. -/
def stepBar (P : StrategyParams) (prices : List ℚ) (i : Nat) (s : PState) :
    PState × List Trade × ℚ :=
  let price := prices.getD i 0
  match indicatorsAt prices P i with
  | none => (s, [], s.capital + (s.shares : ℚ) * price)
  | some (r, ms, ml) =>
    let sig := generate_signal r ms ml P.rsi_oversold P.rsi_overbought
    let p1 := execSignal price i sig s
    let p2 := execStops P price i p1.1
    (p2.1, p1.2 ++ p2.2, p2.1.capital + (p2.1.shares : ℚ) * price)

/-- The loop `for i in range(len(hist))`, run over an explicit list of bar
indices, accumulating the trade log and the equity curve. -/
def runIdx (P : StrategyParams) (prices : List ℚ) :
    List Nat → PState → PState × List Trade × List ℚ
  | [], s => (s, [], [])
  | i :: is, s =>
    let st := stepBar P prices i s
    let rest := runIdx P prices is st.1
    (rest.1, st.2.1 ++ rest.2.1, st.2.2 :: rest.2.2)

/-- The sample mean of a list of rationals (`np.mean`; the source only
takes it of non-empty lists). -/
def listMeanQ (l : List ℚ) : ℚ := l.sum / (l.length : ℚ)

/-- The sample variance with one delta degree of freedom.  The source's
`Series.std()` is the square root of this; the model elides the square
root (a monotone bijection of the nonnegatives) since only definedness,
zero-ness and order of the volatility are used downstream. -/
def varQ (l : List ℚ) : ℚ :=
  (l.map (fun x => (x - listMeanQ l) ^ 2)).sum / ((l.length : ℚ) - 1)

/-- The finite entries of a float list. -/
def numsOf (l : List FV) : List ℚ :=
  l.filterMap (fun v => match v with | .num q => some q | _ => none)

/-- `Series.std()` (ddof = 1, skipna): drop NaNs; NaN if an infinity
remains or fewer than two observations remain; else the (square-root
elided, see `varQ`) standard deviation. -/
def stdFV (l : List FV) : FV :=
  let l2 := l.filter (fun v => v ≠ FV.nan)
  if l2.all FV.isNum then
    if l2.length < 2 then .nan else .num (varQ (numsOf l2))
  else .nan

/-- Sum of a float list (numpy: NaN absorbs, `inf + -inf = NaN`). -/
def sumFV (l : List FV) : FV := l.foldr FV.add (.num 0)

/-- `Series.mean()` (skipna): drop NaNs, NaN on empty, else sum/count. -/
def meanFV (l : List FV) : FV :=
  let l2 := l.filter (fun v => v ≠ FV.nan)
  if l2.isEmpty then .nan else FV.div (sumFV l2) (.num (l2.length : ℚ))

/-- `equity_series.pct_change().dropna()` with the leading NaN dropped:
consecutive ratios `(b − a)/a`; a zero base gives ±inf or NaN by numpy
rules, and `dropna` removes only the NaNs. -/
def pctChange : List ℚ → List FV
  | a :: b :: rest =>
    (if a = 0 then
      (if 0 < b then FV.inf else if b < 0 then FV.ninf else FV.nan)
    else FV.num ((b - a) / a)) :: pctChange (b :: rest)
  | _ => []

/-- The daily-return series of the equity curve. -/
def dailyReturns (equity : List ℚ) : List FV :=
  (pctChange equity).filter (fun v => v ≠ FV.nan)

/-- `Series.cumprod()` (skipna): NaN cells stay NaN and are skipped by the
running product. -/
def cumprodFV (acc : FV) : List FV → List FV
  | [] => []
  | x :: xs =>
    if x = FV.nan then FV.nan :: cumprodFV acc xs
    else
      let a := FV.mul acc x
      a :: cumprodFV a xs

/-- `Series.expanding().max()` (skipna): the running maximum of the non-NaN
prefix, NaN while no non-NaN value has been seen. -/
def runningMaxFV (acc : Option FV) : List FV → List FV
  | [] => []
  | x :: xs =>
    let acc2 : Option FV :=
      if x = FV.nan then acc
      else some (match acc with | none => x | some m => FV.max2 m x)
    (match acc2 with | none => FV.nan | some m => m) :: runningMaxFV acc2 xs

/-- `Series.min()` (skipna): NaN on an all-NaN or empty list. -/
def minListFV (l : List FV) : FV :=
  match l.filter (fun v => v ≠ FV.nan) with
  | [] => .nan
  | x :: xs => xs.foldl FV.min2 x

/-- The positive rational standing in for `np.sqrt(252)` in the annualized
volatility; its exact value is never used by a claim, only its positivity,
so a fixed positive rational approximation replaces the irrational. -/
def sqrt252 : ℚ := 158745 / 10000

/-- The result-record dictionary of `_calculate_performance_metrics`.
`win_rate` and `total_trades` are always finite by construction and are
kept as plain ℚ/Nat; the remaining numeric fields go through the float
pipeline and are modelled as `FV`. -/
structure PerfMetrics where
  total_return : FV
  annualized_return : FV
  volatility : FV
  sharpe_ratio : FV
  max_drawdown : FV
  win_rate : ℚ
  profit_factor : FV
  total_trades : Nat
  buy_hold_return : FV
  excess_return : FV
deriving DecidableEq

/-- `_calculate_performance_metrics`: equity-curve statistics, trade
analysis and the buy-and-hold baseline. -/
def calculate_performance_metrics (equity_curve : List ℚ)
    (trades : List Trade) (prices : List ℚ) : PerfMetrics :=
  let e0 := equity_curve.getD 0 0
  let eLast := equity_curve.getLastD 0
  let total_return := FV.div (FV.num (eLast - e0)) (FV.num e0)
  let dr := dailyReturns equity_curve
  let volatility := FV.mul (stdFV dr) (FV.num sqrt252)
  let sharpe_ratio :=
    if volatility.isPos then
      FV.div (FV.mul (meanFV dr) (FV.num 252)) volatility
    else FV.num 0
  let cum := cumprodFV (FV.num 1) (dr.map (fun r => FV.add (FV.num 1) r))
  let rmax := runningMaxFV none cum
  let dd := List.zipWith (fun c m => FV.div (FV.sub c m) m) cum rmax
  let max_drawdown := minListFV dd
  let winning := trades.filter
    (fun t => t.action = Action.SELL ∨ t.action = Action.TAKE_PROFIT)
  let losing := trades.filter (fun t => t.action = Action.STOP_LOSS)
  let win_rate : ℚ :=
    if trades.isEmpty then 0
    else (winning.length : ℚ) / (trades.length : ℚ)
  let profit_factor :=
    if trades.isEmpty then FV.num 0
    else if ¬winning.isEmpty ∧ ¬losing.isEmpty then
      let avg_win := listMeanQ (winning.map (fun t => t.price))
      let avg_loss := listMeanQ (losing.map (fun t => t.price))
      if 0 < avg_loss then FV.num (avg_win / avg_loss) else FV.inf
    else FV.num 0
  let p0 := prices.getD 0 0
  let buy_hold_return := FV.div (FV.num (prices.getLastD 0 - p0)) (FV.num p0)
  ⟨total_return,
   FV.mul total_return (FV.num (252 / (equity_curve.length : ℚ))),
   volatility, sharpe_ratio, max_drawdown, win_rate, profit_factor,
   trades.length, buy_hold_return,
   FV.sub total_return buy_hold_return⟩

/-- The structured result of one run (the dictionary returned at the end
of `backtest_strategy`).  The top-level `total_return` is a plain Python
float division by `initial_capital`; the source raises on a zero initial
capital, so theorems about this field assume a positive one. -/
structure BacktestResult where
  initial_capital : ℚ
  final_capital : ℚ
  total_return : ℚ
  trades : List Trade
  equity_curve : List ℚ
  performance_metrics : PerfMetrics
deriving DecidableEq

/-- The body of `backtest_strategy` after the empty-history guard: the
bar loop, the forced `CLOSE` of a remaining position at the last bar's
price, and the metric computation (which sees the trade log after the
CLOSE was appended). -/
def runBacktest (prices : List ℚ) (P : StrategyParams)
    (initial_capital : ℚ) : BacktestResult :=
  let r := runIdx P prices (List.range prices.length) ⟨initial_capital, 0, 0⟩
  let sf := r.1
  let trades :=
    if 0 < sf.shares then
      let fp := prices.getLastD 0
      r.2.1 ++ [⟨prices.length - 1, .CLOSE, fp, sf.shares,
        sf.capital + (sf.shares : ℚ) * fp⟩]
    else r.2.1
  let equity := r.2.2
  let final_capital := equity.getLastD 0
  ⟨initial_capital, final_capital,
   (final_capital - initial_capital) / initial_capital,
   trades, equity,
   calculate_performance_metrics equity trades prices⟩

/-- The outcome of `backtest_strategy`: the source returns the dictionary
`{"error": "Could not fetch data for {ticker}"}` when the fetched history
is empty, and the full result record otherwise. -/
inductive Outcome where
  | error
  | ok (r : BacktestResult)
deriving DecidableEq

/-- `backtest_strategy` on an already-fetched price series: the empty-
history guard, then the simulation body. -/
def backtest_strategy (prices : List ℚ) (P : StrategyParams)
    (initial_capital : ℚ) : Outcome :=
  if prices.isEmpty then .error else .ok (runBacktest prices P initial_capital)

/-- Whether an outcome is a full result rather than the error record. -/
def Outcome.isOk : Outcome → Bool
  | .ok _ => true
  | .error => false

/-- The equity curve of an outcome (empty for the error record). -/
def Outcome.equityOf : Outcome → List ℚ
  | .ok r => r.equity_curve
  | .error => []

/-- The trade log of an outcome (empty for the error record). -/
def Outcome.tradesOf : Outcome → List Trade
  | .ok r => r.trades
  | .error => []

/-- The number of trades with a given action in a log. -/
def countAction (ts : List Trade) (a : Action) : Nat :=
  (ts.filter (fun t => t.action = a)).length

/-! ### Basic list lemmas -/

lemma listSum_zero (l : List ℚ) (h : ∀ x ∈ l, x = 0) : l.sum = 0 := by
  induction l with
  | nil => rfl
  | cons a t ih =>
    simp only [List.sum_cons]
    rw [h a (List.mem_cons_self a t), ih (fun x hx => h x (List.mem_cons_of_mem a hx))]
    ring

lemma replicate_getD {n : Nat} {c : ℚ} {j : Nat} (h : j < n) :
    (List.replicate n c).getD j 0 = c := by
  simp [List.getD_eq_getElem?_getD, List.getElem?_replicate, h]

lemma getLastD_replicate_self (x : ℚ) : ∀ n : Nat, (List.replicate n x).getLastD x = x := by
  intro n
  induction n with
  | zero => rfl
  | succ m ih => rw [List.replicate_succ, List.getLastD_cons]; exact ih

lemma getLastD_replicate_pos (x d : ℚ) (n : Nat) (h : 0 < n) :
    (List.replicate n x).getLastD d = x := by
  obtain ⟨m, rfl⟩ := Nat.exists_eq_succ_of_ne_zero (Nat.pos_iff_ne_zero.mp h)
  rw [List.replicate_succ, List.getLastD_cons, getLastD_replicate_self]

/-! ### Simulation-loop lemmas -/

lemma stepBar_skip {P : StrategyParams} {prices : List ℚ} {i : Nat} {s : PState}
    (h : indicatorsAt prices P i = none) :
    stepBar P prices i s = (s, [], s.capital + (s.shares : ℚ) * prices.getD i 0) := by
  unfold stepBar
  rw [h]

lemma runIdx_equity_length (P : StrategyParams) (prices : List ℚ) :
    ∀ (idxs : List Nat) (s : PState),
      (runIdx P prices idxs s).2.2.length = idxs.length := by
  intro idxs
  induction idxs with
  | nil => intro s; rfl
  | cons i is ih => intro s; simp [runIdx, ih]

lemma runIdx_skip (P : StrategyParams) (prices : List ℚ) (s : PState)
    (hsh : s.shares = 0) :
    ∀ (idxs : List Nat), (∀ i ∈ idxs, indicatorsAt prices P i = none) →
      runIdx P prices idxs s = (s, [], List.replicate idxs.length s.capital) := by
  intro idxs
  induction idxs with
  | nil => intro _; rfl
  | cons i is ih =>
    intro h
    have h1 : indicatorsAt prices P i = none := h i (List.mem_cons_self i is)
    have h2 := ih (fun j hj => h j (List.mem_cons_of_mem i hj))
    simp [runIdx, stepBar_skip h1, h2, hsh, List.replicate_succ]

lemma rsiAt_none_of_short {prices : List ℚ} {period i : Nat} (h : i + 1 < period) :
    rsiAt prices period i = none := by
  unfold rsiAt
  rw [if_pos h]

lemma maAt_none_of_short {prices : List ℚ} {w i : Nat} (h : i + 1 < w) :
    maAt prices w i = none := by
  unfold maAt
  rw [if_pos h]

lemma indicatorsAt_none_rsi {prices : List ℚ} {P : StrategyParams} {i : Nat}
    (h : rsiAt prices P.rsi_period i = none) : indicatorsAt prices P i = none := by
  unfold indicatorsAt
  rw [h]

lemma indicatorsAt_none_maL {prices : List ℚ} {P : StrategyParams} {i : Nat}
    (h : maAt prices P.ma_long i = none) : indicatorsAt prices P i = none := by
  unfold indicatorsAt
  rcases rsiAt prices P.rsi_period i with _ | r
  · rfl
  · rcases maAt prices P.ma_short i with _ | ms
    · rfl
    · rw [h]

lemma indicatorsAt_none_of_warmup {prices : List ℚ} {P : StrategyParams} {i : Nat}
    (hi : i < prices.length) (h : prices.length < max P.rsi_period P.ma_long) :
    indicatorsAt prices P i = none := by
  rcases lt_max_iff.mp h with h1 | h1
  · exact indicatorsAt_none_rsi (rsiAt_none_of_short (by omega))
  · exact indicatorsAt_none_maL (maAt_none_of_short (by omega))

lemma isEmpty_false_of_ne {α : Type} {l : List α} (h : l ≠ []) :
    l.isEmpty = false := by
  cases l with
  | nil => exact absurd rfl h
  | cons a t => rfl

/-! ### C5: one equity point per bar -/

/-- C5 (confirmed): for every run on a non-empty price series the returned
equity curve has exactly one point per bar:
`len(equity_curve) == len(price_series)`. -/
theorem C5_equity_length (prices : List ℚ) (P : StrategyParams) (init : ℚ)
    (h : prices ≠ []) :
    (backtest_strategy prices P init).equityOf.length = prices.length := by
  simp [backtest_strategy, isEmpty_false_of_ne h, Outcome.equityOf, runBacktest,
    runIdx_equity_length]

/-- Witness for C5 at the concrete series `[1, 2, 30, 5, 6]`. -/
theorem C5_witness :
    ([1, 2, 30, 5, 6] ≠ ([] : List ℚ)) ∧
    (backtest_strategy [1, 2, 30, 5, 6] ⟨2, 60, 80, 2, 3, 1/20, 1/10⟩
      10).equityOf.length = 5 :=
  ⟨by decide,
   C5_equity_length [1, 2, 30, 5, 6] ⟨2, 60, 80, 2, 3, 1/20, 1/10⟩ 10 (by decide)⟩

/-! ### C2: no configuration validation -/

/-- C2 counterexample: with `rsi_oversold = rsi_overbought = 50` — a
StrategyParams violating the invariant — the engine does NOT reject the run:
it returns an ordinary result and the simulation has executed (five equity
points were produced), contradicting the claim that a ConfigError is raised
before any simulation executes. -/
theorem C2_counterexample :
    (backtest_strategy [1, 2, 30, 5, 6] ⟨2, 50, 50, 2, 3, 1/20, 1/10⟩ 10).isOk
      = true ∧
    (backtest_strategy [1, 2, 30, 5, 6] ⟨2, 50, 50, 2, 3, 1/20, 1/10⟩
      10).equityOf = List.replicate 5 10 := by
  constructor
  · rfl
  · with_unfolding_all rfl

/-- C2 (corrected): the engine performs no StrategyParams validation at
all: for every parameter record — invalid ones such as
`rsi_oversold ≥ rsi_overbought` included — and every non-empty series, the
run is not rejected and the simulation executes for every bar. -/
theorem C2_no_validation (prices : List ℚ) (P : StrategyParams) (init : ℚ)
    (h : prices ≠ []) :
    (backtest_strategy prices P init).isOk = true ∧
    (backtest_strategy prices P init).equityOf.length = prices.length := by
  constructor
  · simp [backtest_strategy, isEmpty_false_of_ne h, Outcome.isOk]
  · simp [backtest_strategy, isEmpty_false_of_ne h, Outcome.equityOf, runBacktest,
      runIdx_equity_length]

/-- Witness for C2 with the invalid parameters `rsi_oversold = rsi_overbought`. -/
theorem C2_witness :
    ([1, 2, 30, 5, 6] ≠ ([] : List ℚ)) ∧
    ((backtest_strategy [1, 2, 30, 5, 6] ⟨2, 50, 50, 2, 3, 1/20, 1/10⟩ 10).isOk
        = true ∧
      (backtest_strategy [1, 2, 30, 5, 6] ⟨2, 50, 50, 2, 3, 1/20, 1/10⟩
        10).equityOf.length = 5) :=
  ⟨by decide,
   C2_no_validation [1, 2, 30, 5, 6] ⟨2, 50, 50, 2, 3, 1/20, 1/10⟩ 10 (by decide)⟩

/-! ### C3: short or empty series -/

/-- C3 counterexample: on an empty price series the source returns the
error record `{"error": ...}` — not a degenerate zero-trade result with a
flat equity curve — contradicting the claim for the missing/empty case. -/
theorem C3_counterexample :
    backtest_strategy [] ⟨14, 30, 70, 20, 50, 1/20, 1/10⟩ 10000 = .error := rfl

/-- C3 (corrected): for every NON-EMPTY price series shorter than
`max(rsi_period, ma_long)` the run returns a degenerate zero-trade result:
the equity curve is flat at `initial_capital` with one point per bar and
the trade list is empty.  (An empty series instead yields the error
record, see the counterexample.) -/
theorem C3_short_series_degenerate (prices : List ℚ) (P : StrategyParams)
    (init : ℚ) (h1 : prices ≠ [])
    (h2 : prices.length < max P.rsi_period P.ma_long) :
    (backtest_strategy prices P init).equityOf =
      List.replicate prices.length init ∧
    (backtest_strategy prices P init).tradesOf = [] := by
  have hrun : runIdx P prices (List.range prices.length) ⟨init, 0, 0⟩ =
      (⟨init, 0, 0⟩, [], List.replicate prices.length init) := by
    have := runIdx_skip P prices ⟨init, 0, 0⟩ rfl (List.range prices.length)
      (fun i hi => indicatorsAt_none_of_warmup (List.mem_range.mp hi) h2)
    simpa using this
  constructor
  · simp [backtest_strategy, isEmpty_false_of_ne h1, Outcome.equityOf,
      runBacktest, hrun]
  · simp [backtest_strategy, isEmpty_false_of_ne h1, Outcome.tradesOf,
      runBacktest, hrun]

/-- Witness for C3 on a two-bar series with the source's default windows. -/
theorem C3_witness :
    ([3, 4] ≠ ([] : List ℚ)) ∧ ([3, 4].length < max (14 : Nat) 50) ∧
    ((backtest_strategy [3, 4] ⟨14, 30, 70, 20, 50, 1/20, 1/10⟩
        10000).equityOf = List.replicate 2 10000 ∧
      (backtest_strategy [3, 4] ⟨14, 30, 70, 20, 50, 1/20, 1/10⟩
        10000).tradesOf = []) :=
  ⟨by decide, by decide,
   C3_short_series_degenerate [3, 4] ⟨14, 30, 70, 20, 50, 1/20, 1/10⟩ 10000
     (by decide) (by decide)⟩

/-! ### C4: the signal rule -/

/-- C4 (confirmed): the per-bar decision is exactly `specDecision`, the
rule written from the spec's words — HOLD when any indicator is undefined
(and then no trade is emitted on that bar), else BUY iff
`RSI < rsi_oversold AND MA_short > MA_long`, else SELL iff
`RSI > rsi_overbought OR MA_short < MA_long`, else HOLD — with the
conjunctive-BUY/disjunctive-SELL asymmetry preserved exactly. -/
theorem C4_signal_rule (prices : List ℚ) (P : StrategyParams) (i : Nat)
    (s : PState) :
    decisionAt prices P i =
      specDecision (rsiAt prices P.rsi_period i) (maAt prices P.ma_short i)
        (maAt prices P.ma_long i) P.rsi_oversold P.rsi_overbought ∧
    (indicatorsAt prices P i = none → (stepBar P prices i s).2.1 = []) := by
  constructor
  · unfold decisionAt indicatorsAt specDecision generate_signal
    rcases rsiAt prices P.rsi_period i with _ | r
    · rfl
    · rcases maAt prices P.ma_short i with _ | ms
      · rfl
      · rcases maAt prices P.ma_long i with _ | ml
        · rfl
        · rfl
  · intro h
    rw [stepBar_skip h]

/-- Witness for C4 on a warm-up bar where the indicators are undefined. -/
theorem C4_witness :
    (indicatorsAt [1, 2] ⟨14, 30, 70, 20, 50, 1/20, 1/10⟩ 0 = none) ∧
    (stepBar ⟨14, 30, 70, 20, 50, 1/20, 1/10⟩ [1, 2] 0 ⟨5, 0, 0⟩).2.1 = [] :=
  ⟨by decide,
   (C4_signal_rule [1, 2] ⟨14, 30, 70, 20, 50, 1/20, 1/10⟩ 0 ⟨5, 0, 0⟩).2
     (by decide)⟩

/-! ### C7: constant price series -/

lemma gainAt_replicate {n : Nat} {c : ℚ} {j : Nat} (hj : j < n) :
    gainAt (List.replicate n c) j = 0 := by
  unfold gainAt
  rcases Nat.eq_zero_or_pos j with rfl | hj0
  · rw [if_pos rfl]
  · rw [if_neg (Nat.pos_iff_ne_zero.mp hj0)]
    have h1 : (List.replicate n c).getD j 0 = c := replicate_getD hj
    have h2 : (List.replicate n c).getD (j - 1) 0 = c := replicate_getD (by omega)
    rw [h1, h2]
    simp

lemma lossAt_replicate {n : Nat} {c : ℚ} {j : Nat} (hj : j < n) :
    lossAt (List.replicate n c) j = 0 := by
  unfold lossAt
  rcases Nat.eq_zero_or_pos j with rfl | hj0
  · rw [if_pos rfl]
  · rw [if_neg (Nat.pos_iff_ne_zero.mp hj0)]
    have h1 : (List.replicate n c).getD j 0 = c := replicate_getD hj
    have h2 : (List.replicate n c).getD (j - 1) 0 = c := replicate_getD (by omega)
    rw [h1, h2]
    simp

lemma rsiAt_replicate {n : Nat} {c : ℚ} {period i : Nat} (hi : i < n) :
    rsiAt (List.replicate n c) period i = none := by
  unfold rsiAt
  split
  · rfl
  · rename_i hp
    have hwin : ∀ j ∈ windowIdx i period, j < n := by
      intro j hj
      obtain ⟨k, hk, rfl⟩ := List.mem_map.mp hj
      have := List.mem_range.mp hk
      omega
    have hg : ((windowIdx i period).map (gainAt (List.replicate n c))).sum = 0 := by
      apply listSum_zero
      intro x hx
      obtain ⟨j, hj, rfl⟩ := List.mem_map.mp hx
      exact gainAt_replicate (hwin j hj)
    have hl : ((windowIdx i period).map (lossAt (List.replicate n c))).sum = 0 := by
      apply listSum_zero
      intro x hx
      obtain ⟨j, hj, rfl⟩ := List.mem_map.mp hx
      exact lossAt_replicate (hwin j hj)
    simp [hg, hl]

/-- C7 (confirmed): on every non-empty constant price series the run has
`total_return = 0`, at most one BUY in the trade log, and at most one
CLOSE.  (On a flat series every RSI cell is the 0/0 NaN, so every bar is
skipped and the log is in fact empty.) -/
theorem C7_constant_series (n : Nat) (c : ℚ) (P : StrategyParams) (init : ℚ)
    (h1 : 1 ≤ n) (_h2 : 0 < init) :
    (runBacktest (List.replicate n c) P init).total_return = 0 ∧
    countAction (runBacktest (List.replicate n c) P init).trades .BUY ≤ 1 ∧
    countAction (runBacktest (List.replicate n c) P init).trades .CLOSE ≤ 1 := by
  have hrun : runIdx P (List.replicate n c) (List.range n) ⟨init, 0, 0⟩ =
      (⟨init, 0, 0⟩, [], List.replicate n init) := by
    have := runIdx_skip P (List.replicate n c) ⟨init, 0, 0⟩ rfl (List.range n)
      (fun i hi => indicatorsAt_none_rsi (rsiAt_replicate (List.mem_range.mp hi)))
    simpa using this
  have hfc : (List.replicate n init).getLast?.getD 0 = init := by
    have := getLastD_replicate_pos init 0 n h1
    rwa [List.getLastD_eq_getLast?] at this
  simp [runBacktest, hrun, hfc, countAction]

/-- Witness for C7 on the constant series `[7, 7, 7]`. -/
theorem C7_witness :
    (1 ≤ 3) ∧ (0 < (10 : ℚ)) ∧
    ((runBacktest (List.replicate 3 (7 : ℚ)) ⟨2, 60, 80, 2, 3, 1/20, 1/10⟩
        10).total_return = 0 ∧
      countAction (runBacktest (List.replicate 3 (7 : ℚ))
        ⟨2, 60, 80, 2, 3, 1/20, 1/10⟩ 10).trades .BUY ≤ 1 ∧
      countAction (runBacktest (List.replicate 3 (7 : ℚ))
        ⟨2, 60, 80, 2, 3, 1/20, 1/10⟩ 10).trades .CLOSE ≤ 1) :=
  ⟨by decide, by decide,
   C7_constant_series 3 7 ⟨2, 60, 80, 2, 3, 1/20, 1/10⟩ 10 (by decide) (by decide)⟩

/-! ### C1: zero-share BUY -/

/-- C1 counterexample: with `initial_capital = 1` the BUY signal at bar 3
(close 5) sizes `shares = floor(1/5) = 0`, and the source still appends a
BUY trade with `shares = 0` to the log — the claim's "no trade is recorded"
is false on the code. -/
theorem C1_counterexample :
    Int.floor ((1 : ℚ) / 5) = 0 ∧
    (runBacktest [1, 2, 30, 5, 6] ⟨2, 60, 80, 2, 3, 1/20, 1/10⟩ 1).trades =
      [⟨3, .BUY, 5, 0, 1⟩] := by
  constructor
  · with_unfolding_all rfl
  · with_unfolding_all rfl

/-- C1 (corrected): on a FLAT bar with a BUY signal and
`floor(capital / close) = 0`, the state machine does remain FLAT with
capital unchanged (only `entry_price` is overwritten), but a BUY trade
record with `shares = 0` and unchanged capital IS appended to the trade
log. -/
theorem C1_zero_share_buy (prices : List ℚ) (P : StrategyParams) (i : Nat)
    (s : PState) (hsig : decisionAt prices P i = .BUY) (hsh : s.shares = 0)
    (hfl : Int.floor (s.capital / prices.getD i 0) = 0) :
    stepBar P prices i s =
      (⟨s.capital, 0, prices.getD i 0⟩,
       [⟨i, .BUY, prices.getD i 0, 0, s.capital⟩], s.capital) := by
  cases hI : indicatorsAt prices P i with
  | none =>
    unfold decisionAt at hsig
    rw [hI] at hsig
    exact absurd hsig (by simp)
  | some v =>
    obtain ⟨r, ms, ml⟩ := v
    have hs : generate_signal r ms ml P.rsi_oversold P.rsi_overbought = .BUY := by
      unfold decisionAt at hsig
      rw [hI] at hsig
      exact hsig
    simp only [List.getD_eq_getElem?_getD] at hfl
    simp [stepBar, hI, hs, execSignal, execStops, hsh, hfl]

/-- Witness for C1 at the bar of the counterexample. -/
theorem C1_witness :
    (decisionAt [1, 2, 30, 5, 6] ⟨2, 60, 80, 2, 3, 1/20, 1/10⟩ 3 =
      Signal.BUY) ∧
    stepBar ⟨2, 60, 80, 2, 3, 1/20, 1/10⟩ [1, 2, 30, 5, 6] 3 ⟨1, 0, 0⟩ =
      (⟨1, 0, 5⟩, [⟨3, .BUY, 5, 0, 1⟩], 1) :=
  ⟨by with_unfolding_all rfl,
   C1_zero_share_buy [1, 2, 30, 5, 6] ⟨2, 60, 80, 2, 3, 1/20, 1/10⟩ 3 ⟨1, 0, 0⟩
     (by with_unfolding_all rfl) rfl (by with_unfolding_all rfl)⟩

/-! ### C8: exclusivity and precedence of exits -/

/-- C8 (confirmed): on no bar do a SELL-signal exit and a stop-loss /
take-profit exit both fire — if a SELL trade is emitted on a bar then no
STOP_LOSS or TAKE_PROFIT trade is emitted on that bar (the SELL zeroes the
shares before the stop block runs) — and inside the stop block the
stop-loss condition takes precedence: while LONG, if
`price_change ≤ -stop_loss` the block emits exactly a STOP_LOSS trade,
never a TAKE_PROFIT one. -/
lemma execStops_actions (P : StrategyParams) (price : ℚ) (i : Nat)
    (s : PState) :
    ∀ t ∈ (execStops P price i s).2,
      t.action = .STOP_LOSS ∨ t.action = .TAKE_PROFIT := by
  simp only [execStops]
  split_ifs <;> simp

lemma execStops_flat (P : StrategyParams) (price : ℚ) (i : Nat) (s : PState)
    (h : ¬ 0 < s.shares) : execStops P price i s = (s, []) := by
  simp only [execStops]
  rw [if_neg h]

lemma execSignal_sell_cases (price : ℚ) (i : Nat) (sig : Signal) (s : PState)
    (h : Action.SELL ∈ (execSignal price i sig s).2.map (fun t => t.action)) :
    (execSignal price i sig s).1.shares = 0 ∧
    (execSignal price i sig s).2.map (fun t => t.action) = [.SELL] := by
  simp only [execSignal] at h ⊢
  split_ifs at h ⊢ with h1 h2 <;> simp_all

theorem C8_exit_exclusivity (P : StrategyParams) (prices : List ℚ) (i : Nat)
    (s : PState) :
    (Action.SELL ∈ (stepBar P prices i s).2.1.map (fun t => t.action) →
      Action.STOP_LOSS ∉ (stepBar P prices i s).2.1.map (fun t => t.action) ∧
      Action.TAKE_PROFIT ∉ (stepBar P prices i s).2.1.map (fun t => t.action)) ∧
    (∀ s1 : PState, 0 < s1.shares →
      (prices.getD i 0 - s1.entry_price) / s1.entry_price ≤ -P.stop_loss →
      (execStops P (prices.getD i 0) i s1).2.map (fun t => t.action) =
        [.STOP_LOSS]) := by
  constructor
  · intro hin
    cases hI : indicatorsAt prices P i with
    | none =>
      rw [stepBar_skip hI] at hin
      simp at hin
    | some v =>
      obtain ⟨r, ms, ml⟩ := v
      simp only [stepBar, hI, List.map_append] at hin ⊢
      rw [List.mem_append] at hin
      rcases hin with h | h
      · have hc := execSignal_sell_cases _ _ _ _ h
        have hflat := execStops_flat P (prices.getD i 0) i _
          (by rw [hc.1]; exact lt_irrefl 0)
        rw [hflat, hc.2]
        simp
      · exfalso
        rw [List.mem_map] at h
        obtain ⟨t, ht, hact⟩ := h
        rcases execStops_actions P (prices.getD i 0) i _ t ht with h1 | h1 <;>
          rw [hact] at h1 <;> exact absurd h1 (by simp)
  · intro s1 h1 h2
    simp only [execStops]
    rw [if_pos h1, if_pos h2]
    rfl

/-- Witness for C8: a SELL bar of the concrete run, and a stop-loss hit. -/
theorem C8_witness :
    (Action.SELL ∈ (stepBar ⟨2, 60, 80, 2, 3, 1/20, 1/10⟩ [1, 2, 30, 5, 6] 4
        ⟨0, 2, 5⟩).2.1.map (fun t => t.action) ∧
      Action.STOP_LOSS ∉ (stepBar ⟨2, 60, 80, 2, 3, 1/20, 1/10⟩ [1, 2, 30, 5, 6]
        4 ⟨0, 2, 5⟩).2.1.map (fun t => t.action) ∧
      Action.TAKE_PROFIT ∉ (stepBar ⟨2, 60, 80, 2, 3, 1/20, 1/10⟩
        [1, 2, 30, 5, 6] 4 ⟨0, 2, 5⟩).2.1.map (fun t => t.action)) ∧
    (execStops ⟨2, 60, 80, 2, 3, 1/20, 1/10⟩ 5 3 ⟨0, 2, 10⟩).2.map
      (fun t => t.action) = [.STOP_LOSS] := by
  have hin : Action.SELL ∈ (stepBar ⟨2, 60, 80, 2, 3, 1/20, 1/10⟩
      [1, 2, 30, 5, 6] 4 ⟨0, 2, 5⟩).2.1.map (fun t => t.action) := by
    with_unfolding_all decide
  have hmain := (C8_exit_exclusivity ⟨2, 60, 80, 2, 3, 1/20, 1/10⟩
    [1, 2, 30, 5, 6] 4 ⟨0, 2, 5⟩).1 hin
  have hstop := (C8_exit_exclusivity ⟨2, 60, 80, 2, 3, 1/20, 1/10⟩
    [1, 2, 30, 5, 6] 3 ⟨0, 2, 5⟩).2 ⟨0, 2, 10⟩ (by decide)
    (by with_unfolding_all decide)
  exact ⟨⟨hin, hmain.1, hmain.2⟩, hstop⟩

/-! ### C9: floor-division sizing never overdraws capital -/

lemma floor_mul_le (c p : ℚ) (hp : 0 < p) : (⌊c / p⌋ : ℚ) * p ≤ c := by
  have h : ((⌊c / p⌋ : ℤ) : ℚ) ≤ c / p := Int.floor_le (c / p)
  calc (⌊c / p⌋ : ℚ) * p ≤ (c / p) * p := mul_le_mul_of_nonneg_right h hp.le
  _ = c := div_mul_cancel₀ c hp.ne'

lemma buy_capital_nonneg (c p : ℚ) (hp : 0 < p) :
    0 ≤ c - (⌊c / p⌋ : ℚ) * p := by
  have := floor_mul_le c p hp
  linarith

lemma execSignal_trade_facts (price : ℚ) (i : Nat) (sig : Signal) (s : PState)
    (hp : 0 < price) :
    ∀ t ∈ (execSignal price i sig s).2,
      t.price = price ∧ (t.action = .BUY → 0 ≤ t.capital) := by
  unfold execSignal
  split_ifs with h1 h2
  · intro t ht
    rw [List.mem_singleton] at ht
    subst ht
    exact ⟨rfl, fun _ => buy_capital_nonneg s.capital price hp⟩
  · intro t ht
    rw [List.mem_singleton] at ht
    subst ht
    refine ⟨rfl, ?_⟩
    intro h
    exact absurd h (by simp)
  · intro t ht
    simp at ht

lemma execStops_trade_facts (P : StrategyParams) (price : ℚ) (i : Nat)
    (s : PState) :
    ∀ t ∈ (execStops P price i s).2,
      t.price = price ∧ (t.action = .BUY → 0 ≤ t.capital) := by
  intro t ht
  have h1 := execStops_actions P price i s t ht
  have h2 : t.price = price := by
    revert ht
    simp only [execStops]
    split_ifs <;> intro ht <;> simp_all
  refine ⟨h2, ?_⟩
  intro hB
  rcases h1 with h | h <;> rw [hB] at h <;> exact absurd h (by simp)

lemma stepBar_trade_facts (P : StrategyParams) (prices : List ℚ) (i : Nat)
    (s : PState) (hp : 0 < prices.getD i 0) :
    ∀ t ∈ (stepBar P prices i s).2.1,
      t.price = prices.getD i 0 ∧ (t.action = .BUY → 0 ≤ t.capital) := by
  cases hI : indicatorsAt prices P i with
  | none =>
    rw [stepBar_skip hI]
    intro t ht
    simp at ht
  | some v =>
    obtain ⟨r, ms, ml⟩ := v
    simp only [stepBar, hI]
    intro t ht
    rw [List.mem_append] at ht
    rcases ht with h | h
    · exact execSignal_trade_facts (prices.getD i 0) i _ s hp t h
    · exact execStops_trade_facts P (prices.getD i 0) i _ t h

lemma runIdx_trade_facts (P : StrategyParams) (prices : List ℚ) :
    ∀ (idxs : List Nat) (s : PState), (∀ i ∈ idxs, 0 < prices.getD i 0) →
      ∀ t ∈ (runIdx P prices idxs s).2.1,
        0 < t.price ∧ (t.action = .BUY → 0 ≤ t.capital) := by
  intro idxs
  induction idxs with
  | nil =>
    intro s _ t ht
    simp [runIdx] at ht
  | cons i is ih =>
    intro s hp t ht
    simp only [runIdx] at ht
    rw [List.mem_append] at ht
    rcases ht with h | h
    · have := stepBar_trade_facts P prices i s (hp i (List.mem_cons_self i is)) t h
      exact ⟨this.1 ▸ hp i (List.mem_cons_self i is), this.2⟩
    · exact ih _ (fun j hj => hp j (List.mem_cons_of_mem i hj)) t h

lemma getD_mem {prices : List ℚ} {i : Nat} (h : i < prices.length) :
    prices.getD i 0 ∈ prices := by
  rw [List.getD_eq_getElem?_getD, List.getElem?_eq_getElem h]
  exact List.getElem_mem h

lemma getLastD_mem {prices : List ℚ} (h : prices ≠ []) :
    prices.getLastD 0 ∈ prices := by
  rw [List.getLastD_eq_getLast?, List.getLast?_eq_getLast prices h]
  exact List.getLast_mem h

lemma runBacktest_trade_facts (prices : List ℚ) (P : StrategyParams) (init : ℚ)
    (hp : ∀ p ∈ prices, 0 < p) :
    ∀ t ∈ (runBacktest prices P init).trades,
      0 < t.price ∧ (t.action = .BUY → 0 ≤ t.capital) := by
  intro t ht
  have hidx : ∀ i ∈ List.range prices.length, 0 < prices.getD i 0 :=
    fun i hi => hp _ (getD_mem (List.mem_range.mp hi))
  simp only [runBacktest] at ht
  split_ifs at ht with hcl
  · rw [List.mem_append] at ht
    rcases ht with h | h
    · exact runIdx_trade_facts P prices (List.range prices.length) _ hidx t h
    · rw [List.mem_singleton] at h
      subst h
      have hne : prices ≠ [] := by
        rintro rfl
        revert hcl
        simp [runIdx]
      refine ⟨hp _ (getLastD_mem hne), ?_⟩
      intro h
      exact absurd h (by simp)
  · exact runIdx_trade_facts P prices (List.range prices.length) _ hidx t ht

/-- C9 (confirmed): in every run whose closing prices are all positive,
the capital recorded immediately after every BUY is nonnegative — shares
sized by `floor(capital / close)` can never overdraw capital. -/
theorem C9_buy_never_overdraws (prices : List ℚ) (P : StrategyParams)
    (init : ℚ) (hp : ∀ p ∈ prices, 0 < p) :
    ∀ t ∈ (runBacktest prices P init).trades,
      t.action = .BUY → 0 ≤ t.capital :=
  fun t ht => (runBacktest_trade_facts prices P init hp t ht).2

/-- Witness for C9: the BUY of the concrete run spends the capital down to
exactly 0, which is still nonnegative. -/
theorem C9_witness :
    (∀ p ∈ [(1 : ℚ), 2, 30, 5, 6], 0 < p) ∧
    0 ≤ (Trade.mk 3 .BUY 5 2 0).capital :=
  ⟨by with_unfolding_all decide,
   C9_buy_never_overdraws [1, 2, 30, 5, 6] ⟨2, 60, 80, 2, 3, 1/20, 1/10⟩ 10
     (by with_unfolding_all decide) ⟨3, .BUY, 5, 2, 0⟩
     (by with_unfolding_all decide) rfl⟩

/-! ### C10: the win rate can never exceed one half -/

/-- One while the state is LONG, zero while FLAT. -/
def longBit (s : PState) : Nat := if 0 < s.shares then 1 else 0

/-- Number of BUY entries in a log. -/
def buys (ts : List Trade) : Nat :=
  ts.countP (fun t => t.action = Action.BUY)

/-- Number of non-BUY (exit) records in a log. -/
def exits (ts : List Trade) : Nat :=
  ts.countP (fun t => t.action ≠ Action.BUY)

/-- Number of records counted as winners by the analyzer. -/
def wins (ts : List Trade) : Nat :=
  ts.countP (fun t => t.action = Action.SELL ∨ t.action = Action.TAKE_PROFIT)

lemma buys_append (a b : List Trade) : buys (a ++ b) = buys a + buys b :=
  List.countP_append _ a b

lemma exits_append (a b : List Trade) : exits (a ++ b) = exits a + exits b :=
  List.countP_append _ a b

lemma buys_one (t : Trade) (h : t.action = Action.BUY) : buys [t] = 1 := by
  simp [buys, List.countP_cons, h]

lemma buys_zero (t : Trade) (h : t.action ≠ Action.BUY) : buys [t] = 0 := by
  simp [buys, List.countP_cons, h]

lemma exits_one (t : Trade) (h : t.action ≠ Action.BUY) : exits [t] = 1 := by
  simp [exits, List.countP_cons, h]

lemma exits_zero (t : Trade) (h : t.action = Action.BUY) : exits [t] = 0 := by
  simp [exits, List.countP_cons, h]

lemma buys_cons (t : Trade) (ts : List Trade) :
    buys (t :: ts) = buys ts + (if t.action = Action.BUY then 1 else 0) := by
  simp only [buys, List.countP_cons]
  by_cases h : t.action = Action.BUY <;> simp [h]

lemma exits_cons (t : Trade) (ts : List Trade) :
    exits (t :: ts) = exits ts + (if t.action = Action.BUY then 0 else 1) := by
  simp only [exits, List.countP_cons]
  by_cases h : t.action = Action.BUY <;> simp [h]

lemma execSignal_count (price : ℚ) (i : Nat) (sig : Signal) (s : PState) :
    exits (execSignal price i sig s).2 + longBit (execSignal price i sig s).1 ≤
      buys (execSignal price i sig s).2 + longBit s := by
  simp only [execSignal]
  split_ifs with h1 h2
  · rw [exits_zero _ rfl, buys_one _ rfl]
    simp only [longBit, h1.2]
    split_ifs <;> omega
  · rw [exits_one _ (by simp), buys_zero _ (by simp)]
    simp [longBit, h2.2]
  · simp [exits, buys]

lemma execStops_count (P : StrategyParams) (price : ℚ) (i : Nat) (s : PState) :
    exits (execStops P price i s).2 + longBit (execStops P price i s).1 ≤
      buys (execStops P price i s).2 + longBit s := by
  simp only [execStops]
  split_ifs with h1 h2 h3
  · rw [exits_one _ (by simp), buys_zero _ (by simp)]
    simp [longBit, h1]
  · rw [exits_one _ (by simp), buys_zero _ (by simp)]
    simp [longBit, h1]
  · simp [exits, buys]
  · simp [exits, buys]

lemma stepBar_count (P : StrategyParams) (prices : List ℚ) (i : Nat)
    (s : PState) :
    exits (stepBar P prices i s).2.1 + longBit (stepBar P prices i s).1 ≤
      buys (stepBar P prices i s).2.1 + longBit s := by
  cases hI : indicatorsAt prices P i with
  | none =>
    rw [stepBar_skip hI]
    simp [exits, buys]
  | some v =>
    obtain ⟨r, ms, ml⟩ := v
    simp only [stepBar, hI]
    have e1 := execSignal_count (prices.getD i 0) i
      (generate_signal r ms ml P.rsi_oversold P.rsi_overbought) s
    have e2 := execStops_count P (prices.getD i 0) i
      (execSignal (prices.getD i 0) i
        (generate_signal r ms ml P.rsi_oversold P.rsi_overbought) s).1
    rw [exits_append, buys_append]
    omega

lemma runIdx_count (P : StrategyParams) (prices : List ℚ) :
    ∀ (idxs : List Nat) (s : PState),
      exits (runIdx P prices idxs s).2.1 +
          longBit (runIdx P prices idxs s).1 ≤
        buys (runIdx P prices idxs s).2.1 + longBit s := by
  intro idxs
  induction idxs with
  | nil => intro s; simp [runIdx, exits, buys]
  | cons i is ih =>
    intro s
    have h1 := stepBar_count P prices i s
    have h2 := ih (stepBar P prices i s).1
    simp only [runIdx]
    rw [exits_append, buys_append]
    omega

lemma runBacktest_count (prices : List ℚ) (P : StrategyParams) (init : ℚ) :
    exits (runBacktest prices P init).trades ≤
      buys (runBacktest prices P init).trades := by
  have h := runIdx_count P prices (List.range prices.length) ⟨init, 0, 0⟩
  have hs0 : longBit ⟨init, 0, 0⟩ = 0 := by simp [longBit]
  rw [hs0] at h
  simp only [runBacktest]
  split_ifs with hcl
  · have hlb : longBit (runIdx P prices (List.range prices.length)
        ⟨init, 0, 0⟩).1 = 1 := by simp [longBit, hcl]
    rw [hlb] at h
    rw [exits_append, buys_append, exits_one _ (by simp), buys_zero _ (by simp)]
    omega
  · have hlb : longBit (runIdx P prices (List.range prices.length)
        ⟨init, 0, 0⟩).1 = 0 := by simp [longBit, hcl]
    rw [hlb] at h
    omega

lemma wins_le_exits (ts : List Trade) : wins ts ≤ exits ts := by
  apply List.countP_mono_left
  intro t _ h
  simp only [decide_eq_true_eq] at h ⊢
  rcases h with h | h <;> rw [h] <;> simp

lemma buys_add_exits (ts : List Trade) : buys ts + exits ts = ts.length := by
  induction ts with
  | nil => rfl
  | cons t ts ih =>
    rw [buys_cons, exits_cons, List.length_cons]
    by_cases h : t.action = Action.BUY <;> simp [h] <;> omega

lemma runBacktest_metrics (prices : List ℚ) (P : StrategyParams) (init : ℚ) :
    (runBacktest prices P init).performance_metrics =
      calculate_performance_metrics (runBacktest prices P init).equity_curve
        (runBacktest prices P init).trades prices := rfl

lemma metrics_win_rate (equity : List ℚ) (trades : List Trade)
    (prices : List ℚ) :
    (calculate_performance_metrics equity trades prices).win_rate =
      if trades.isEmpty then 0
      else ((trades.filter (fun t => t.action = Action.SELL ∨
          t.action = Action.TAKE_PROFIT)).length : ℚ) / (trades.length : ℚ) :=
  rfl

/-- C10 (confirmed, implicit): whenever the trade log is non-empty,
`win_rate ≤ 1/2` — the numerator counts only SELL and TAKE_PROFIT records
while the denominator counts every record including the BUY entries, and
exits can never outnumber BUY entries. -/
theorem C10_win_rate_le_half (prices : List ℚ) (P : StrategyParams)
    (init : ℚ) (h : (runBacktest prices P init).trades ≠ []) :
    (runBacktest prices P init).performance_metrics.win_rate ≤ 1 / 2 := by
  rw [runBacktest_metrics, metrics_win_rate, if_neg (by
    rw [isEmpty_false_of_ne h]; exact Bool.false_ne_true)]
  have hW : 2 * wins (runBacktest prices P init).trades ≤
      (runBacktest prices P init).trades.length := by
    have h1 := wins_le_exits (runBacktest prices P init).trades
    have h2 := runBacktest_count prices P init
    have h3 := buys_add_exits (runBacktest prices P init).trades
    omega
  have hN : (0 : ℚ) < ((runBacktest prices P init).trades.length : ℚ) := by
    have := List.length_pos.mpr h
    exact_mod_cast this
  rw [div_le_div_iff₀ hN (by norm_num : (0 : ℚ) < 2)]
  have hwinsEq : (runBacktest prices P init).trades.countP
      (fun t => t.action = Action.SELL ∨ t.action = Action.TAKE_PROFIT) =
      ((runBacktest prices P init).trades.filter (fun t =>
        t.action = Action.SELL ∨ t.action = Action.TAKE_PROFIT)).length :=
    List.countP_eq_length_filter _ _
  rw [wins, hwinsEq] at hW
  have hWq : ((2 * ((runBacktest prices P init).trades.filter (fun t =>
      t.action = Action.SELL ∨ t.action = Action.TAKE_PROFIT)).length : ℕ) : ℚ) ≤
      (((runBacktest prices P init).trades.length : ℕ) : ℚ) :=
    Nat.cast_le.mpr hW
  push_cast at hWq
  linarith

/-- Witness for C10 on the concrete run with one BUY and one SELL
(win rate exactly 1/2). -/
theorem C10_witness :
    ((runBacktest [1, 2, 30, 5, 6] ⟨2, 60, 80, 2, 3, 1/20, 1/10⟩ 10).trades
      ≠ []) ∧
    (runBacktest [1, 2, 30, 5, 6] ⟨2, 60, 80, 2, 3, 1/20, 1/10⟩
      10).performance_metrics.win_rate ≤ 1 / 2 := by
  have h : (runBacktest [1, 2, 30, 5, 6] ⟨2, 60, 80, 2, 3, 1/20, 1/10⟩
      10).trades ≠ [] := by with_unfolding_all decide
  exact ⟨h, C10_win_rate_le_half [1, 2, 30, 5, 6] ⟨2, 60, 80, 2, 3, 1/20, 1/10⟩
    10 h⟩

/-! ### C6: no NaN in the result record (supporting invariants) -/

/-- The running invariant of the position state: nonnegative capital,
nonnegative share count, and strictly positive capital while FLAT. -/
def Inv (s : PState) : Prop :=
  0 ≤ s.capital ∧ 0 ≤ s.shares ∧ (s.shares = 0 → 0 < s.capital)

lemma equity_pos (s : PState) (price : ℚ) (hp : 0 < price) (hs : Inv s) :
    0 < s.capital + (s.shares : ℚ) * price := by
  obtain ⟨hc, hsh, hflat⟩ := hs
  rcases eq_or_lt_of_le hsh with h0 | hpos
  · have hcp := hflat h0.symm
    rw [← h0]
    push_cast
    linarith
  · have h1 : (1 : ℚ) ≤ (s.shares : ℚ) := by exact_mod_cast hpos
    have h2 : 1 * price ≤ (s.shares : ℚ) * price :=
      mul_le_mul_of_nonneg_right h1 hp.le
    linarith

lemma execSignal_inv (price : ℚ) (i : Nat) (sig : Signal) (s : PState)
    (hp : 0 < price) (hs : Inv s) : Inv (execSignal price i sig s).1 := by
  obtain ⟨hc, hsh, hflat⟩ := hs
  simp only [Inv, execSignal]
  split_ifs with h1 h2
  · dsimp only
    refine ⟨buy_capital_nonneg s.capital price hp,
      Int.floor_nonneg.mpr (div_nonneg hc hp.le), ?_⟩
    intro hz
    have hcp := hflat h1.2
    rw [hz]
    push_cast
    linarith
  · dsimp only
    have h1q : (0 : ℚ) < (s.shares : ℚ) * price :=
      mul_pos (by exact_mod_cast h2.2) hp
    exact ⟨by linarith, le_refl 0, fun _ => by linarith⟩
  · exact ⟨hc, hsh, hflat⟩

lemma execStops_inv (P : StrategyParams) (price : ℚ) (i : Nat) (s : PState)
    (hp : 0 < price) (hs : Inv s) : Inv (execStops P price i s).1 := by
  obtain ⟨hc, hsh, hflat⟩ := hs
  simp only [Inv, execStops]
  split_ifs with h1 h2 h3
  · dsimp only
    have h1q : (0 : ℚ) < (s.shares : ℚ) * price :=
      mul_pos (by exact_mod_cast h1) hp
    exact ⟨by linarith, le_refl 0, fun _ => by linarith⟩
  · dsimp only
    have h1q : (0 : ℚ) < (s.shares : ℚ) * price :=
      mul_pos (by exact_mod_cast h1) hp
    exact ⟨by linarith, le_refl 0, fun _ => by linarith⟩
  · exact ⟨hc, hsh, hflat⟩
  · exact ⟨hc, hsh, hflat⟩

lemma stepBar_inv (P : StrategyParams) (prices : List ℚ) (i : Nat) (s : PState)
    (hp : 0 < prices.getD i 0) (hs : Inv s) :
    Inv (stepBar P prices i s).1 ∧ 0 < (stepBar P prices i s).2.2 := by
  cases hI : indicatorsAt prices P i with
  | none =>
    rw [stepBar_skip hI]
    exact ⟨hs, equity_pos s _ hp hs⟩
  | some v =>
    obtain ⟨r, ms, ml⟩ := v
    simp only [stepBar, hI]
    have i1 := execSignal_inv (prices.getD i 0) i
      (generate_signal r ms ml P.rsi_oversold P.rsi_overbought) s hp hs
    have i2 := execStops_inv P (prices.getD i 0) i
      (execSignal (prices.getD i 0) i
        (generate_signal r ms ml P.rsi_oversold P.rsi_overbought) s).1 hp i1
    exact ⟨i2, equity_pos _ _ hp i2⟩

lemma runIdx_inv (P : StrategyParams) (prices : List ℚ) :
    ∀ (idxs : List Nat) (s : PState),
      (∀ i ∈ idxs, 0 < prices.getD i 0) → Inv s →
      Inv (runIdx P prices idxs s).1 ∧
      ∀ e ∈ (runIdx P prices idxs s).2.2, 0 < e := by
  intro idxs
  induction idxs with
  | nil =>
    intro s _ hs
    exact ⟨hs, by simp [runIdx]⟩
  | cons i is ih =>
    intro s hp hs
    have h1 := stepBar_inv P prices i s (hp i (List.mem_cons_self i is)) hs
    have h2 := ih (stepBar P prices i s).1
      (fun j hj => hp j (List.mem_cons_of_mem i hj)) h1.1
    simp only [runIdx]
    refine ⟨h2.1, ?_⟩
    intro e he
    rw [List.mem_cons] at he
    rcases he with rfl | he
    · exact h1.2
    · exact h2.2 e he

lemma runBacktest_equity (prices : List ℚ) (P : StrategyParams) (init : ℚ) :
    (runBacktest prices P init).equity_curve =
      (runIdx P prices (List.range prices.length) ⟨init, 0, 0⟩).2.2 := rfl

lemma runBacktest_equity_pos (prices : List ℚ) (P : StrategyParams) (init : ℚ)
    (hp : ∀ p ∈ prices, 0 < p) (hi : 0 < init) :
    ∀ e ∈ (runBacktest prices P init).equity_curve, 0 < e := by
  rw [runBacktest_equity]
  exact (runIdx_inv P prices (List.range prices.length) ⟨init, 0, 0⟩
    (fun i hi2 => hp _ (getD_mem (List.mem_range.mp hi2)))
    ⟨hi.le, le_refl 0, fun _ => hi⟩).2

lemma runBacktest_equity_len (prices : List ℚ) (P : StrategyParams)
    (init : ℚ) :
    (runBacktest prices P init).equity_curve.length = prices.length := by
  rw [runBacktest_equity, runIdx_equity_length, List.length_range]

/-! ### C6: float-pipeline lemmas -/

lemma FV.div_num_num (a b : ℚ) (hb : b ≠ 0) :
    FV.div (FV.num a) (FV.num b) = FV.num (a / b) := by
  simp [FV.div, hb]

lemma FV.sub_num_num (a b : ℚ) :
    FV.sub (FV.num a) (FV.num b) = FV.num (a - b) := by
  simp [FV.sub, FV.neg, FV.add, sub_eq_add_neg]

lemma pctChange_length : ∀ l : List ℚ, (pctChange l).length = l.length - 1 := by
  intro l
  induction l with
  | nil => rfl
  | cons a t ih =>
    cases t with
    | nil => rfl
    | cons b rest =>
      simp only [pctChange, List.length_cons]
      simp only [pctChange, List.length_cons] at ih
      omega

lemma pctChange_mem : ∀ l : List ℚ, (∀ x ∈ l, 0 < x) →
    ∀ r ∈ pctChange l, ∃ q : ℚ, r = FV.num q ∧ 0 < 1 + q := by
  intro l
  induction l with
  | nil => intro _ r hr; simp [pctChange] at hr
  | cons a t ih =>
    intro h
    cases t with
    | nil => intro r hr; simp [pctChange] at hr
    | cons b rest =>
      have ha : 0 < a := h a (List.mem_cons_self a _)
      have hb : 0 < b := h b (List.mem_cons_of_mem a (List.mem_cons_self b _))
      intro r hr
      simp only [pctChange, List.mem_cons] at hr
      rcases hr with hr | hr
      · rw [if_neg (ne_of_gt ha)] at hr
        refine ⟨(b - a) / a, hr, ?_⟩
        have he : 1 + (b - a) / a = b / a := by field_simp
        rw [he]
        exact div_pos hb ha
      · exact ih (fun x hx => h x (List.mem_cons_of_mem a hx)) r hr

lemma dailyReturns_eq (equity : List ℚ)
    (h : ∀ r ∈ pctChange equity, ∃ q, r = FV.num q ∧ 0 < 1 + q) :
    dailyReturns equity = pctChange equity := by
  unfold dailyReturns
  apply List.filter_eq_self.mpr
  intro r hr
  obtain ⟨q, rfl, -⟩ := h r hr
  simp

lemma filter_ne_nan_eq (l : List FV) (h : ∀ v ∈ l, ∃ q, v = FV.num q) :
    l.filter (fun v => v ≠ FV.nan) = l := by
  apply List.filter_eq_self.mpr
  intro v hv
  obtain ⟨q, rfl⟩ := h v hv
  simp

lemma sumFV_num : ∀ l : List FV, (∀ v ∈ l, ∃ q, v = FV.num q) →
    ∃ q, sumFV l = FV.num q := by
  intro l
  induction l with
  | nil => exact fun _ => ⟨0, rfl⟩
  | cons x t ih =>
    intro h
    obtain ⟨qx, hx⟩ := h x (List.mem_cons_self x t)
    obtain ⟨qt, ht⟩ := ih (fun v hv => h v (List.mem_cons_of_mem x hv))
    refine ⟨qx + qt, ?_⟩
    simp only [sumFV, List.foldr_cons] at ht ⊢
    rw [hx, ht]
    rfl

lemma meanFV_num (l : List FV) (h : ∀ v ∈ l, ∃ q, v = FV.num q)
    (hne : l ≠ []) : ∃ q, meanFV l = FV.num q := by
  have hfil := filter_ne_nan_eq l h
  obtain ⟨qs, hs⟩ := sumFV_num l h
  have hlen : ((l.length : ℚ)) ≠ 0 := by
    have := List.length_pos.mpr hne
    positivity
  refine ⟨qs / l.length, ?_⟩
  simp only [meanFV, hfil, isEmpty_false_of_ne hne, Bool.false_eq_true,
    if_false, hs]
  exact FV.div_num_num qs l.length hlen

lemma stdFV_num (l : List FV) (h : ∀ v ∈ l, ∃ q, v = FV.num q)
    (hlen : 2 ≤ l.length) : ∃ q, stdFV l = FV.num q := by
  have hfil := filter_ne_nan_eq l h
  have hall : l.all FV.isNum = true := by
    rw [List.all_eq_true]
    intro v hv
    obtain ⟨q, rfl⟩ := h v hv
    rfl
  refine ⟨varQ (numsOf l), ?_⟩
  simp only [stdFV, hfil, hall, if_true]
  rw [if_neg (by omega)]

lemma cumprod_pos : ∀ (l : List FV) (a : ℚ), 0 < a →
    (∀ v ∈ l, ∃ q, v = FV.num q ∧ 0 < q) →
    ∀ v ∈ cumprodFV (FV.num a) l, ∃ q, v = FV.num q ∧ 0 < q := by
  intro l
  induction l with
  | nil => intro a _ _ v hv; simp [cumprodFV] at hv
  | cons x t ih =>
    intro a ha h
    obtain ⟨qx, hqx, hqxpos⟩ := h x (List.mem_cons_self x t)
    subst hqx
    intro v hv
    simp only [cumprodFV] at hv
    rw [if_neg (by simp)] at hv
    rw [List.mem_cons] at hv
    rcases hv with rfl | hv
    · exact ⟨a * qx, rfl, mul_pos ha hqxpos⟩
    · exact ih (a * qx) (mul_pos ha hqxpos)
        (fun w hw => h w (List.mem_cons_of_mem _ hw)) v hv

lemma cumprod_length : ∀ (l : List FV) (acc : FV),
    (cumprodFV acc l).length = l.length := by
  intro l
  induction l with
  | nil => intro acc; rfl
  | cons x t ih =>
    intro acc
    simp only [cumprodFV]
    split_ifs <;> simp [ih]

lemma runningMax_pos : ∀ (l : List FV) (acc : Option FV),
    (∀ v ∈ l, ∃ q, v = FV.num q ∧ 0 < q) →
    (acc = none ∨ ∃ a, acc = some (FV.num a) ∧ 0 < a) →
    ∀ v ∈ runningMaxFV acc l, ∃ q, v = FV.num q ∧ 0 < q := by
  intro l
  induction l with
  | nil => intro acc _ _ v hv; simp [runningMaxFV] at hv
  | cons x t ih =>
    intro acc h hacc
    obtain ⟨qx, hqx, hqxpos⟩ := h x (List.mem_cons_self x t)
    subst hqx
    intro v hv
    simp only [runningMaxFV] at hv
    rw [if_neg (by simp)] at hv
    rcases hacc with rfl | ⟨a, rfl, hapos⟩
    · simp only [List.mem_cons] at hv
      rcases hv with rfl | hv
      · exact ⟨qx, rfl, hqxpos⟩
      · exact ih (some (FV.num qx))
          (fun w hw => h w (List.mem_cons_of_mem _ hw))
          (Or.inr ⟨qx, rfl, hqxpos⟩) v hv
    · simp only [List.mem_cons] at hv
      rcases hv with rfl | hv
      · exact ⟨max a qx, rfl, lt_max_of_lt_left hapos⟩
      · exact ih (some (FV.num (max a qx)))
          (fun w hw => h w (List.mem_cons_of_mem _ hw))
          (Or.inr ⟨max a qx, rfl, lt_max_of_lt_left hapos⟩) v hv

lemma runningMax_length : ∀ (l : List FV) (acc : Option FV),
    (runningMaxFV acc l).length = l.length := by
  intro l
  induction l with
  | nil => intro acc; rfl
  | cons x t ih =>
    intro acc
    simp only [runningMaxFV, List.length_cons, ih]

lemma zip_dd_num : ∀ (l1 l2 : List FV),
    (∀ a ∈ l1, ∃ q, a = FV.num q) → (∀ b ∈ l2, ∃ q, b = FV.num q ∧ 0 < q) →
    ∀ x ∈ List.zipWith (fun c m => FV.div (FV.sub c m) m) l1 l2,
      ∃ q, x = FV.num q := by
  intro l1
  induction l1 with
  | nil => intro l2 _ _ x hx; simp at hx
  | cons c t ih =>
    intro l2 h1 h2
    cases l2 with
    | nil => intro x hx; simp at hx
    | cons m t2 =>
      obtain ⟨qc, hqc⟩ := h1 c (List.mem_cons_self c t)
      obtain ⟨qm, hqm, hqmpos⟩ := h2 m (List.mem_cons_self m t2)
      subst hqc
      subst hqm
      intro x hx
      rw [List.zipWith_cons_cons, List.mem_cons] at hx
      rcases hx with rfl | hx
      · refine ⟨(qc - qm) / qm, ?_⟩
        rw [FV.sub_num_num, FV.div_num_num _ _ (ne_of_gt hqmpos)]
      · exact ih t2 (fun a ha => h1 a (List.mem_cons_of_mem _ ha))
          (fun b hb => h2 b (List.mem_cons_of_mem _ hb)) x hx

lemma foldl_min2_num : ∀ (t : List FV) (x : FV), (∃ q, x = FV.num q) →
    (∀ v ∈ t, ∃ q, v = FV.num q) → ∃ q, t.foldl FV.min2 x = FV.num q := by
  intro t
  induction t with
  | nil => intro x hx _; exact hx
  | cons y t2 ih =>
    intro x hx h
    obtain ⟨qx, rfl⟩ := hx
    obtain ⟨qy, rfl⟩ := h y (List.mem_cons_self y t2)
    exact ih (FV.min2 (FV.num qx) (FV.num qy)) ⟨min qx qy, rfl⟩
      (fun v hv => h v (List.mem_cons_of_mem _ hv))

lemma minList_num (l : List FV) (hne : l ≠ [])
    (h : ∀ v ∈ l, ∃ q, v = FV.num q) : ∃ q, minListFV l = FV.num q := by
  have hfil := filter_ne_nan_eq l h
  unfold minListFV
  rw [hfil]
  cases l with
  | nil => exact absurd rfl hne
  | cons x t =>
    exact foldl_min2_num t x (h x (List.mem_cons_self x t))
      (fun v hv => h v (List.mem_cons_of_mem x hv))

lemma listMeanQ_pos (l : List ℚ) (hne : l ≠ []) (h : ∀ x ∈ l, 0 < x) :
    0 < listMeanQ l := by
  unfold listMeanQ
  apply div_pos (List.sum_pos l h hne)
  have := List.length_pos.mpr hne
  exact_mod_cast this

/-! ### C6: field extraction and definedness of each metric -/

lemma metrics_total_return (e : List ℚ) (t : List Trade) (p : List ℚ) :
    (calculate_performance_metrics e t p).total_return =
      FV.div (FV.num (e.getLastD 0 - e.getD 0 0)) (FV.num (e.getD 0 0)) := rfl

lemma metrics_annualized (e : List ℚ) (t : List Trade) (p : List ℚ) :
    (calculate_performance_metrics e t p).annualized_return =
      FV.mul (FV.div (FV.num (e.getLastD 0 - e.getD 0 0))
        (FV.num (e.getD 0 0))) (FV.num (252 / (e.length : ℚ))) := rfl

lemma metrics_volatility (e : List ℚ) (t : List Trade) (p : List ℚ) :
    (calculate_performance_metrics e t p).volatility =
      FV.mul (stdFV (dailyReturns e)) (FV.num sqrt252) := rfl

lemma metrics_sharpe (e : List ℚ) (t : List Trade) (p : List ℚ) :
    (calculate_performance_metrics e t p).sharpe_ratio =
      (if (FV.mul (stdFV (dailyReturns e)) (FV.num sqrt252)).isPos then
        FV.div (FV.mul (meanFV (dailyReturns e)) (FV.num 252))
          (FV.mul (stdFV (dailyReturns e)) (FV.num sqrt252))
      else FV.num 0) := rfl

lemma metrics_mdd (e : List ℚ) (t : List Trade) (p : List ℚ) :
    (calculate_performance_metrics e t p).max_drawdown =
      minListFV (List.zipWith (fun c m => FV.div (FV.sub c m) m)
        (cumprodFV (FV.num 1)
          ((dailyReturns e).map (fun r => FV.add (FV.num 1) r)))
        (runningMaxFV none (cumprodFV (FV.num 1)
          ((dailyReturns e).map (fun r => FV.add (FV.num 1) r))))) := rfl

lemma metrics_profit_factor (e : List ℚ) (t : List Trade) (p : List ℚ) :
    (calculate_performance_metrics e t p).profit_factor =
      (if t.isEmpty then FV.num 0
       else if ¬(t.filter (fun tr => tr.action = Action.SELL ∨
            tr.action = Action.TAKE_PROFIT)).isEmpty ∧
          ¬(t.filter (fun tr => tr.action = Action.STOP_LOSS)).isEmpty then
         (if 0 < listMeanQ ((t.filter (fun tr =>
              tr.action = Action.STOP_LOSS)).map (fun tr => tr.price)) then
           FV.num (listMeanQ ((t.filter (fun tr => tr.action = Action.SELL ∨
              tr.action = Action.TAKE_PROFIT)).map (fun tr => tr.price)) /
             listMeanQ ((t.filter (fun tr =>
              tr.action = Action.STOP_LOSS)).map (fun tr => tr.price)))
         else FV.inf)
       else FV.num 0) := rfl

lemma metrics_buy_hold (e : List ℚ) (t : List Trade) (p : List ℚ) :
    (calculate_performance_metrics e t p).buy_hold_return =
      FV.div (FV.num (p.getLastD 0 - p.getD 0 0)) (FV.num (p.getD 0 0)) := rfl

lemma metrics_excess (e : List ℚ) (t : List Trade) (p : List ℚ) :
    (calculate_performance_metrics e t p).excess_return =
      FV.sub (FV.div (FV.num (e.getLastD 0 - e.getD 0 0))
        (FV.num (e.getD 0 0)))
        (FV.div (FV.num (p.getLastD 0 - p.getD 0 0))
          (FV.num (p.getD 0 0))) := rfl

lemma volatility_num (dr : List FV) (hnum : ∀ r ∈ dr, ∃ q, r = FV.num q)
    (h2 : 2 ≤ dr.length) :
    ∃ q, FV.mul (stdFV dr) (FV.num sqrt252) = FV.num q := by
  obtain ⟨vq, hvq⟩ := stdFV_num dr hnum h2
  exact ⟨vq * sqrt252, by rw [hvq]; rfl⟩

lemma sharpe_num (dr : List FV) (hnum : ∀ r ∈ dr, ∃ q, r = FV.num q)
    (h2 : 2 ≤ dr.length) :
    ∃ q, (if (FV.mul (stdFV dr) (FV.num sqrt252)).isPos then
        FV.div (FV.mul (meanFV dr) (FV.num 252))
          (FV.mul (stdFV dr) (FV.num sqrt252))
      else FV.num 0) = FV.num q := by
  obtain ⟨vq, hvq⟩ := stdFV_num dr hnum h2
  have hne : dr ≠ [] := by
    intro h0
    rw [h0] at h2
    simp at h2
  obtain ⟨mq, hmq⟩ := meanFV_num dr hnum hne
  have hvol : FV.mul (stdFV dr) (FV.num sqrt252) = FV.num (vq * sqrt252) := by
    rw [hvq]
    rfl
  rw [hvol, hmq]
  by_cases hx : 0 < vq * sqrt252
  · rw [if_pos (by simp [FV.isPos, hx])]
    have hm : FV.mul (FV.num mq) (FV.num 252) = FV.num (mq * 252) := rfl
    rw [hm, FV.div_num_num _ _ (ne_of_gt hx)]
    exact ⟨_, rfl⟩
  · rw [if_neg (by simp [FV.isPos, hx])]
    exact ⟨0, rfl⟩

lemma mdd_num (dr : List FV)
    (hnum : ∀ r ∈ dr, ∃ q, r = FV.num q ∧ 0 < 1 + q) (hne : dr ≠ []) :
    ∃ q, minListFV (List.zipWith (fun c m => FV.div (FV.sub c m) m)
      (cumprodFV (FV.num 1) (dr.map (fun r => FV.add (FV.num 1) r)))
      (runningMaxFV none (cumprodFV (FV.num 1)
        (dr.map (fun r => FV.add (FV.num 1) r))))) = FV.num q := by
  have hmap : ∀ v ∈ dr.map (fun r => FV.add (FV.num 1) r),
      ∃ q, v = FV.num q ∧ 0 < q := by
    intro v hv
    rw [List.mem_map] at hv
    obtain ⟨r, hr, rfl⟩ := hv
    obtain ⟨q, rfl, hq⟩ := hnum r hr
    exact ⟨1 + q, rfl, hq⟩
  have hcum := cumprod_pos (dr.map (fun r => FV.add (FV.num 1) r)) 1
    one_pos hmap
  have hrmax := runningMax_pos
    (cumprodFV (FV.num 1) (dr.map (fun r => FV.add (FV.num 1) r))) none
    hcum (Or.inl rfl)
  have hdd := zip_dd_num
    (cumprodFV (FV.num 1) (dr.map (fun r => FV.add (FV.num 1) r)))
    (runningMaxFV none (cumprodFV (FV.num 1)
      (dr.map (fun r => FV.add (FV.num 1) r))))
    (fun a ha => ((hcum a ha).imp fun q hq => hq.1)) hrmax
  apply minList_num _ _ hdd
  have hlen1 : (cumprodFV (FV.num 1)
      (dr.map (fun r => FV.add (FV.num 1) r))).length = dr.length := by
    rw [cumprod_length, List.length_map]
  have hlen2 : (runningMaxFV none (cumprodFV (FV.num 1)
      (dr.map (fun r => FV.add (FV.num 1) r)))).length = dr.length := by
    rw [runningMax_length]
    exact hlen1
  have hdrpos : 0 < dr.length := List.length_pos.mpr hne
  apply List.ne_nil_of_length_pos
  rw [List.length_zipWith, hlen1, hlen2]
  omega

lemma profit_factor_num (t : List Trade) (htp : ∀ tr ∈ t, 0 < tr.price) :
    ∃ q, (if t.isEmpty then FV.num 0
       else if ¬(t.filter (fun tr => tr.action = Action.SELL ∨
            tr.action = Action.TAKE_PROFIT)).isEmpty ∧
          ¬(t.filter (fun tr => tr.action = Action.STOP_LOSS)).isEmpty then
         (if 0 < listMeanQ ((t.filter (fun tr =>
              tr.action = Action.STOP_LOSS)).map (fun tr => tr.price)) then
           FV.num (listMeanQ ((t.filter (fun tr => tr.action = Action.SELL ∨
              tr.action = Action.TAKE_PROFIT)).map (fun tr => tr.price)) /
             listMeanQ ((t.filter (fun tr =>
              tr.action = Action.STOP_LOSS)).map (fun tr => tr.price)))
         else FV.inf)
       else FV.num 0) = FV.num q := by
  by_cases hE : t.isEmpty
  · exact ⟨0, by rw [if_pos hE]⟩
  · rw [if_neg hE]
    by_cases hWL : ¬(t.filter (fun tr => tr.action = Action.SELL ∨
        tr.action = Action.TAKE_PROFIT)).isEmpty ∧
        ¬(t.filter (fun tr => tr.action = Action.STOP_LOSS)).isEmpty
    · rw [if_pos hWL]
      have hlose_ne : t.filter (fun tr => tr.action = Action.STOP_LOSS) ≠ [] := by
        intro h0
        apply hWL.2
        rw [h0]
        rfl
      have hmap_ne : (t.filter (fun tr =>
          tr.action = Action.STOP_LOSS)).map (fun tr => tr.price) ≠ [] := by
        intro h0
        exact hlose_ne (List.map_eq_nil_iff.mp h0)
      have hpos : ∀ x ∈ (t.filter (fun tr =>
          tr.action = Action.STOP_LOSS)).map (fun tr => tr.price), 0 < x := by
        intro x hx
        rw [List.mem_map] at hx
        obtain ⟨tr, htr, rfl⟩ := hx
        exact htp tr (List.mem_of_mem_filter htr)
      rw [if_pos (listMeanQ_pos _ hmap_ne hpos)]
      exact ⟨_, rfl⟩
    · rw [if_neg hWL]
      exact ⟨0, rfl⟩

lemma metrics_defined (equity : List ℚ) (trades : List Trade)
    (prices : List ℚ) (heq : ∀ e ∈ equity, 0 < e) (hlen : 3 ≤ equity.length)
    (htp : ∀ t ∈ trades, 0 < t.price) (hp0 : 0 < prices.getD 0 0) :
    ((calculate_performance_metrics equity trades prices).total_return.isNum
        = true) ∧
    ((calculate_performance_metrics equity trades
        prices).annualized_return.isNum = true) ∧
    ((calculate_performance_metrics equity trades prices).volatility.isNum
        = true) ∧
    ((calculate_performance_metrics equity trades prices).sharpe_ratio.isNum
        = true) ∧
    ((calculate_performance_metrics equity trades prices).max_drawdown.isNum
        = true) ∧
    ((calculate_performance_metrics equity trades prices).profit_factor.isNum
        = true) ∧
    ((calculate_performance_metrics equity trades
        prices).buy_hold_return.isNum = true) ∧
    ((calculate_performance_metrics equity trades prices).excess_return.isNum
        = true) := by
  have he0 : 0 < equity.getD 0 0 := heq _ (getD_mem (by omega))
  have hdrmem := pctChange_mem equity heq
  have hdr : dailyReturns equity = pctChange equity :=
    dailyReturns_eq equity hdrmem
  have hdrnum : ∀ r ∈ dailyReturns equity, ∃ q, r = FV.num q ∧ 0 < 1 + q := by
    rw [hdr]
    exact hdrmem
  have hdrnum2 : ∀ r ∈ dailyReturns equity, ∃ q, r = FV.num q :=
    fun r hr => ((hdrnum r hr).imp fun q hq => hq.1)
  have hdrlen : (dailyReturns equity).length = equity.length - 1 := by
    rw [hdr, pctChange_length]
  have hdr2 : 2 ≤ (dailyReturns equity).length := by omega
  have hdrne : dailyReturns equity ≠ [] := by
    intro h0
    rw [h0] at hdr2
    simp at hdr2
  refine ⟨?_, ?_, ?_, ?_, ?_, ?_, ?_, ?_⟩
  · rw [metrics_total_return, FV.div_num_num _ _ (ne_of_gt he0)]
    rfl
  · rw [metrics_annualized, FV.div_num_num _ _ (ne_of_gt he0)]
    rfl
  · rw [metrics_volatility]
    obtain ⟨q, hq⟩ := volatility_num (dailyReturns equity) hdrnum2 hdr2
    rw [hq]
    rfl
  · rw [metrics_sharpe]
    obtain ⟨q, hq⟩ := sharpe_num (dailyReturns equity) hdrnum2 hdr2
    rw [hq]
    rfl
  · rw [metrics_mdd]
    obtain ⟨q, hq⟩ := mdd_num (dailyReturns equity) hdrnum hdrne
    rw [hq]
    rfl
  · rw [metrics_profit_factor]
    obtain ⟨q, hq⟩ := profit_factor_num trades htp
    rw [hq]
    rfl
  · rw [metrics_buy_hold, FV.div_num_num _ _ (ne_of_gt hp0)]
    rfl
  · rw [metrics_excess, FV.div_num_num _ _ (ne_of_gt he0),
      FV.div_num_num _ _ (ne_of_gt hp0), FV.sub_num_num]
    rfl

/-- C6 counterexample: the two-bar run `[10, 10]` with the source's default
parameters and positive initial capital is a valid run (non-empty series,
valid parameters), yet its equity curve yields a single daily return, the
ddof-1 standard deviation of one observation is NaN, and the NaN is stored
in the `volatility` field of the result record — contradicting the claim
that no NaN is ever propagated into the record. -/
theorem C6_counterexample :
    (runBacktest [10, 10] ⟨14, 30, 70, 20, 50, 1/20, 1/10⟩
      10000).performance_metrics.volatility = FV.nan := by
  with_unfolding_all rfl

/-- C6 (corrected): for every run on at least three positive closing
prices, positive initial capital and valid window parameters, every float
field of the result record — total return, annualized return, volatility,
Sharpe ratio, max drawdown, profit factor, buy-and-hold return, excess
return — is a finite number: every division singularity is replaced by its
explicit fallback and no NaN reaches the record.  (Runs on one or two bars
instead store NaN in `volatility` — and on one bar in `max_drawdown` — see
the counterexample.) -/
theorem C6_metrics_defined (prices : List ℚ) (P : StrategyParams) (init : ℚ)
    (hlen : 3 ≤ prices.length) (hp : ∀ p ∈ prices, 0 < p) (hi : 0 < init)
    (_hP : 0 < P.rsi_period ∧ 0 < P.ma_short ∧ 0 < P.ma_long) :
    (((runBacktest prices P init).performance_metrics.total_return.isNum
        = true) ∧
      ((runBacktest prices P init).performance_metrics.annualized_return.isNum
        = true) ∧
      ((runBacktest prices P init).performance_metrics.volatility.isNum
        = true) ∧
      ((runBacktest prices P init).performance_metrics.sharpe_ratio.isNum
        = true) ∧
      ((runBacktest prices P init).performance_metrics.max_drawdown.isNum
        = true) ∧
      ((runBacktest prices P init).performance_metrics.profit_factor.isNum
        = true) ∧
      ((runBacktest prices P init).performance_metrics.buy_hold_return.isNum
        = true) ∧
      ((runBacktest prices P init).performance_metrics.excess_return.isNum
        = true)) := by
  have heq := runBacktest_equity_pos prices P init hp hi
  have helen := runBacktest_equity_len prices P init
  have htp := fun t ht => (runBacktest_trade_facts prices P init hp t ht).1
  have hp0 : 0 < prices.getD 0 0 := hp _ (getD_mem (by omega))
  rw [runBacktest_metrics]
  exact metrics_defined _ _ _ heq (by omega) htp hp0

/-- Witness for C6 on the concrete five-bar run. -/
theorem C6_witness :
    (3 ≤ [(1 : ℚ), 2, 30, 5, 6].length) ∧
    (∀ p ∈ [(1 : ℚ), 2, 30, 5, 6], 0 < p) ∧ (0 < (10 : ℚ)) ∧
    (((runBacktest [1, 2, 30, 5, 6] ⟨2, 60, 80, 2, 3, 1/20, 1/10⟩
        10).performance_metrics.total_return.isNum = true) ∧
      ((runBacktest [1, 2, 30, 5, 6] ⟨2, 60, 80, 2, 3, 1/20, 1/10⟩
        10).performance_metrics.annualized_return.isNum = true) ∧
      ((runBacktest [1, 2, 30, 5, 6] ⟨2, 60, 80, 2, 3, 1/20, 1/10⟩
        10).performance_metrics.volatility.isNum = true) ∧
      ((runBacktest [1, 2, 30, 5, 6] ⟨2, 60, 80, 2, 3, 1/20, 1/10⟩
        10).performance_metrics.sharpe_ratio.isNum = true) ∧
      ((runBacktest [1, 2, 30, 5, 6] ⟨2, 60, 80, 2, 3, 1/20, 1/10⟩
        10).performance_metrics.max_drawdown.isNum = true) ∧
      ((runBacktest [1, 2, 30, 5, 6] ⟨2, 60, 80, 2, 3, 1/20, 1/10⟩
        10).performance_metrics.profit_factor.isNum = true) ∧
      ((runBacktest [1, 2, 30, 5, 6] ⟨2, 60, 80, 2, 3, 1/20, 1/10⟩
        10).performance_metrics.buy_hold_return.isNum = true) ∧
      ((runBacktest [1, 2, 30, 5, 6] ⟨2, 60, 80, 2, 3, 1/20, 1/10⟩
        10).performance_metrics.excess_return.isNum = true)) :=
  ⟨by decide, by with_unfolding_all decide, by with_unfolding_all decide,
   C6_metrics_defined [1, 2, 30, 5, 6] ⟨2, 60, 80, 2, 3, 1/20, 1/10⟩ 10
     (by decide) (by with_unfolding_all decide) (by with_unfolding_all decide)
     (by decide)⟩

end AISB
